import Mathlib

/-!
# Request-context decoration of the ArangoDB Go driver (v2/connection/context.go)

A shallow embedding of `v2/connection/context.go` together with the part of Go's
standard `context` package that the file calls (`Background`, `WithValue`, the
`Value` method), followed by theorems about the five write operations and the two
read operations.

Conventions of the embedding

* A Go interface value of type `any` is a `Go.Any`: the nil interface, or a value
  tagged with its dynamic type.
* A Go `context.Context` interface value is a `context.Context`, an
  `Option context.Ctx`: `none` is the nil interface.
* A Go panic is the `Except.error` branch of `Except String _`.
-/

namespace Go

/-- Values of Go's interface type `any`, tagged with their dynamic type.
`nil` is the nil interface. `Duration` is `time.Duration` (an `int64` count of
nanoseconds; the file performs no arithmetic on it), `strings` is `[]string`,
`ContextKey` is `connection.ContextKey` (a named string type, hence a dynamic type
different from `string`). `other` is a value of any other dynamic type: the name of
the type, whether the type is comparable, and a rendering of the value. -/
inductive Any where
  | nil : Any
  | bool (b : Bool) : Any
  | string (s : String) : Any
  | Duration (d : Int) : Any
  | strings (v : List String) : Any
  | ContextKey (s : String) : Any
  | other (typeName : String) (isComparable : Bool) (repr : String) : Any
  deriving DecidableEq, Repr

namespace Any

/-- Go's `reflectlite.TypeOf(x).Comparable()` for a non-nil interface value:
booleans, strings and the named integer and string types are comparable, slices are
not. -/
def Comparable : Any → Bool
  | nil => false
  | bool _ => true
  | string _ => true
  | Duration _ => true
  | strings _ => false
  | ContextKey _ => true
  | other _ c _ => c

/-- The comma-ok type assertion `v.(bool)`: the value and `true` when the dynamic
type is `bool`, the zero value `false` and `false` otherwise. -/
def assertBool : Any → Bool × Bool
  | bool b => (b, true)
  | _ => (false, false)

/-- The comma-ok type assertion `v.(string)`: the value and `true` when the dynamic
type is `string`, the zero value `""` and `false` otherwise. -/
def assertString : Any → String × Bool
  | string s => (s, true)
  | _ => ("", false)

end Any

end Go

namespace context

open Go

/-- Non-nil implementations of Go's `context.Context` interface, as far as value
lookup is concerned. `backgroundCtx` is the empty root returned by
`context.Background()`. `valueCtx` is the link made by `context.WithValue`: a parent,
a key and a value. `custom` is any other implementation (a cancellation or deadline
context, `context.TODO()`, a user type), given by its `Value` method, which is taken
to be a function of the key that returns. -/
inductive Ctx where
  | backgroundCtx : Ctx
  | valueCtx (parent : Ctx) (key val : Any) : Ctx
  | custom (value : Any → Any) : Ctx

/-- A `context.Context` interface value: `none` is the nil interface. -/
abbrev Context := Option Ctx

/-- The method `Value(key)` of a non-nil context. The empty root has no values
(it returns the nil interface); a `valueCtx` returns its value when its key equals
the requested key (interface equality: same dynamic type and same value) and asks
its parent otherwise. -/
def Ctx.Value : Ctx → Any → Any
  | .backgroundCtx, _ => Any.nil
  | .valueCtx parent k v, key => if k = key then v else parent.Value key
  | .custom value, key => value key

/-- Go's `context.Background()`: the non-nil empty root context. -/
def Background : Context := some Ctx.backgroundCtx

/-- Go's `context.WithValue(parent, key, val)`. It panics on a nil parent, on a nil
key and on a key whose type is not comparable; otherwise it returns a new
`valueCtx` link on top of the parent. -/
def WithValue (parent : Context) (key val : Any) : Except String Context :=
  match parent with
  | none => Except.error "cannot create context from nil parent"
  | some p =>
    if key = Any.nil then Except.error "nil key"
    else if !key.Comparable then Except.error "key is not comparable"
    else Except.ok (some (Ctx.valueCtx p key val))

end context

namespace connection

open Go

/-- The constant `keyUseQueueTimeout ContextKey = "arangodb-use-queue-timeout"`. -/
def keyUseQueueTimeout : Any := Any.ContextKey "arangodb-use-queue-timeout"

/-- The constant `keyMaxQueueTime ContextKey = "arangodb-max-queue-time-seconds"`. -/
def keyMaxQueueTime : Any := Any.ContextKey "arangodb-max-queue-time-seconds"

/-- The constant `keyDriverFlags ContextKey = "arangodb-driver-flags"`. -/
def keyDriverFlags : Any := Any.ContextKey "arangodb-driver-flags"

/-- The constant `keyAsyncRequest ContextKey = "arangodb-async-request"`. -/
def keyAsyncRequest : Any := Any.ContextKey "arangodb-async-request"

/-- The constant `keyAsyncID ContextKey = "arangodb-async-id"`. -/
def keyAsyncID : Any := Any.ContextKey "arangodb-async-id"

/-- The function `contextOrBackground`: the given context if it is not nil,
`context.Background()` otherwise. -/
def contextOrBackground (ctx : context.Context) : context.Context :=
  if ctx.isSome then ctx
  else context.Background

/-- The function `WithArangoQueueTimeout(parent, useQueueTimeout)`. -/
def WithArangoQueueTimeout (parent : context.Context) (useQueueTimeout : Bool) :
    Except String context.Context :=
  context.WithValue (contextOrBackground parent) keyUseQueueTimeout (Any.bool useQueueTimeout)

/-- The function `WithArangoQueueTime(parent, duration)`. -/
def WithArangoQueueTime (parent : context.Context) (duration : Int) :
    Except String context.Context :=
  context.WithValue (contextOrBackground parent) keyMaxQueueTime (Any.Duration duration)

/-- The function `WithDriverFlags(parent, value)`. -/
def WithDriverFlags (parent : context.Context) (value : List String) :
    Except String context.Context :=
  context.WithValue (contextOrBackground parent) keyDriverFlags (Any.strings value)

/-- The function `WithAsync(parent)`. -/
def WithAsync (parent : context.Context) : Except String context.Context :=
  context.WithValue (contextOrBackground parent) keyAsyncRequest (Any.bool true)

/-- The function `WithAsyncID(parent, asyncID)`. -/
def WithAsyncID (parent : context.Context) (asyncID : String) :
    Except String context.Context :=
  context.WithValue (contextOrBackground parent) keyAsyncID (Any.string asyncID)

/-- The function `IsAsyncRequest(ctx)`. -/
def IsAsyncRequest (ctx : context.Context) : Bool :=
  match ctx with
  | some c =>
    let v := c.Value keyAsyncRequest
    if v ≠ Any.nil then
      let (isAsync, ok) := v.assertBool
      if ok && isAsync then true
      else false
    else false
  | none => false

/-- The function `HasAsyncID(ctx)`. -/
def HasAsyncID (ctx : context.Context) : String × Bool :=
  match ctx with
  | some c =>
    let q := c.Value keyAsyncID
    if q ≠ Any.nil then
      let (v, ok) := q.assertString
      if ok then (v, true)
      else ("", false)
    else ("", false)
  | none => ("", false)

/-- One call of a write operation of the file, with its argument. -/
inductive WriteOp where
  | ArangoQueueTimeout (useQueueTimeout : Bool) : WriteOp
  | ArangoQueueTime (duration : Int) : WriteOp
  | DriverFlags (value : List String) : WriteOp
  | Async : WriteOp
  | AsyncID (asyncID : String) : WriteOp
  deriving DecidableEq, Repr

namespace WriteOp

/-- Performs the call on a parent context. -/
def run : WriteOp → context.Context → Except String context.Context
  | ArangoQueueTimeout useQueueTimeout, parent => WithArangoQueueTimeout parent useQueueTimeout
  | ArangoQueueTime duration, parent => WithArangoQueueTime parent duration
  | DriverFlags value, parent => WithDriverFlags parent value
  | Async, parent => WithAsync parent
  | AsyncID asyncID, parent => WithAsyncID parent asyncID

/-- The reserved key the called function passes to `context.WithValue`. -/
def key : WriteOp → Any
  | ArangoQueueTimeout _ => keyUseQueueTimeout
  | ArangoQueueTime _ => keyMaxQueueTime
  | DriverFlags _ => keyDriverFlags
  | Async => keyAsyncRequest
  | AsyncID _ => keyAsyncID

/-- The value the called function passes to `context.WithValue`. -/
def val : WriteOp → Any
  | ArangoQueueTimeout useQueueTimeout => Any.bool useQueueTimeout
  | ArangoQueueTime duration => Any.Duration duration
  | DriverFlags value => Any.strings value
  | Async => Any.bool true
  | AsyncID asyncID => Any.string asyncID

end WriteOp

/-- Performs a finite sequence of write calls, each on the context the previous one
returned; a panic of one call ends the sequence. -/
def runAll : List WriteOp → context.Context → Except String context.Context
  | [], ctx => Except.ok ctx
  | op :: ops, ctx =>
    match op.run ctx with
    | Except.ok next => runAll ops next
    | Except.error e => Except.error e

/-- Value lookup on an interface value in which the nil context reads as the empty
root, the context that `contextOrBackground` puts in its place. -/
def lookup (ctx : context.Context) (key : Any) : Any :=
  match ctx with
  | some c => c.Value key
  | none => Any.nil

/-- A write function `w` with reserved key `own` leaves every other key alone: for
every parent `c` and every key `k` other than `own`, `w c` returns a non-nil context
whose `Value k` is the `Value k` of `contextOrBackground c`, that is of `c` itself,
or of the empty root when `c` is nil. -/
def LeavesOtherKeys (w : context.Context → Except String context.Context) (own : Any) : Prop :=
  ∀ (c : context.Context) (k : Any), k ≠ own →
    ∃ r p, w c = Except.ok (some r) ∧ contextOrBackground c = some p ∧ r.Value k = p.Value k

/-- The calls `op1` and `op2` are calls of the same write function. -/
def WriteOp.SameFunction : WriteOp → WriteOp → Prop
  | WriteOp.ArangoQueueTimeout _, WriteOp.ArangoQueueTimeout _ => True
  | WriteOp.ArangoQueueTime _, WriteOp.ArangoQueueTime _ => True
  | WriteOp.DriverFlags _, WriteOp.DriverFlags _ => True
  | WriteOp.Async, WriteOp.Async => True
  | WriteOp.AsyncID _, WriteOp.AsyncID _ => True
  | _, _ => False

end connection

/-! ## The same code over an explicit store

In Go a `valueCtx` is a heap object and a context value points to it. To state
that a derivation writes to no existing context, the code is embedded a second
time with the store of allocated `valueCtx` objects passed explicitly. -/

namespace context

open Go

/-- A `context.Context` interface value next to a store: the nil interface, the empty
root, a pointer to the `valueCtx` object at an address of the store, or any other
implementation, given by its `Value` method. -/
inductive Ref where
  | nil : Ref
  | backgroundCtx : Ref
  | valueCtx (addr : Nat) : Ref
  | custom (value : Any → Any) : Ref

/-- The fields of a `valueCtx` struct: the embedded parent `Context`, `key` and
`val`. -/
structure ValueCtx where
  Context : Ref
  key : Any
  val : Any

/-- The allocated `valueCtx` objects, the newest first: in the store `o :: rest` the
object `o` has the address `rest.length`, and the objects of `rest` keep the
addresses they have in `rest`. -/
abbrev Store := List ValueCtx

/-- The context `ctx` exists in the store `s`: a pointer points to an allocated
object. -/
def Ref.ValidIn (s : Store) : Ref → Prop
  | Ref.valueCtx addr => addr < s.length
  | _ => True

/-- The method `Value(key)` of the context `ctx` in the store. The object at the
address of a pointer answers with its value when its key equals the requested key
and asks its parent otherwise; a parent was allocated before its child. The file
calls `Value` on non-nil contexts only; on the nil interface and on a pointer to no
object the answer is set to nil. -/
def Store.Value : Store → Ref → Any → Any
  | _, Ref.nil, _ => Any.nil
  | _, Ref.backgroundCtx, _ => Any.nil
  | _, Ref.custom value, key => value key
  | [], Ref.valueCtx _, _ => Any.nil
  | o :: rest, Ref.valueCtx addr, key =>
    if addr = rest.length then
      if o.key = key then o.val else Store.Value rest o.Context key
    else Store.Value rest (Ref.valueCtx addr) key

/-- Go's `context.WithValue(parent, key, val)` over the store: after the same three
checks as `WithValue` it allocates one new `valueCtx` object and returns the store
with that object and the pointer to it. -/
def Store.WithValue (s : Store) (parent : Ref) (key val : Any) : Except String (Store × Ref) :=
  match parent with
  | Ref.nil => Except.error "cannot create context from nil parent"
  | p =>
    if key = Any.nil then Except.error "nil key"
    else if !key.Comparable then Except.error "key is not comparable"
    else Except.ok (ValueCtx.mk p key val :: s, Ref.valueCtx s.length)

/-- The context value, in the sense of `Context`, that `ctx` stands for in the
store; `none` also for a pointer to no object. -/
def Store.denote : Store → Ref → Context
  | _, Ref.nil => none
  | _, Ref.backgroundCtx => some Ctx.backgroundCtx
  | _, Ref.custom value => some (Ctx.custom value)
  | [], Ref.valueCtx _ => none
  | o :: rest, Ref.valueCtx addr =>
    if addr = rest.length then
      match Store.denote rest o.Context with
      | some p => some (Ctx.valueCtx p o.key o.val)
      | none => none
    else Store.denote rest (Ref.valueCtx addr)

end context

namespace connection

namespace store

open Go context

/-- The function `contextOrBackground` on a context value next to a store. -/
def contextOrBackground (ctx : Ref) : Ref :=
  match ctx with
  | Ref.nil => Ref.backgroundCtx
  | c => c

/-- The function `WithArangoQueueTimeout(parent, useQueueTimeout)` over the store. -/
def WithArangoQueueTimeout (s : Store) (parent : Ref) (useQueueTimeout : Bool) :
    Except String (Store × Ref) :=
  s.WithValue (contextOrBackground parent) keyUseQueueTimeout (Any.bool useQueueTimeout)

/-- The function `WithArangoQueueTime(parent, duration)` over the store. -/
def WithArangoQueueTime (s : Store) (parent : Ref) (duration : Int) :
    Except String (Store × Ref) :=
  s.WithValue (contextOrBackground parent) keyMaxQueueTime (Any.Duration duration)

/-- The function `WithDriverFlags(parent, value)` over the store. -/
def WithDriverFlags (s : Store) (parent : Ref) (value : List String) :
    Except String (Store × Ref) :=
  s.WithValue (contextOrBackground parent) keyDriverFlags (Any.strings value)

/-- The function `WithAsync(parent)` over the store. -/
def WithAsync (s : Store) (parent : Ref) : Except String (Store × Ref) :=
  s.WithValue (contextOrBackground parent) keyAsyncRequest (Any.bool true)

/-- The function `WithAsyncID(parent, asyncID)` over the store. -/
def WithAsyncID (s : Store) (parent : Ref) (asyncID : String) : Except String (Store × Ref) :=
  s.WithValue (contextOrBackground parent) keyAsyncID (Any.string asyncID)

/-- The function `IsAsyncRequest(ctx)` over the store. -/
def IsAsyncRequest (s : Store) (ctx : Ref) : Bool :=
  match ctx with
  | Ref.nil => false
  | c =>
    let v := s.Value c keyAsyncRequest
    if v ≠ Any.nil then
      let (isAsync, ok) := v.assertBool
      if ok && isAsync then true
      else false
    else false

/-- The function `HasAsyncID(ctx)` over the store. -/
def HasAsyncID (s : Store) (ctx : Ref) : String × Bool :=
  match ctx with
  | Ref.nil => ("", false)
  | c =>
    let q := s.Value c keyAsyncID
    if q ≠ Any.nil then
      let (v, ok) := q.assertString
      if ok then (v, true)
      else ("", false)
    else ("", false)

/-- Performs one write call on a parent context over the store. -/
def run : WriteOp → Store → Ref → Except String (Store × Ref)
  | WriteOp.ArangoQueueTimeout useQueueTimeout, s, parent =>
    WithArangoQueueTimeout s parent useQueueTimeout
  | WriteOp.ArangoQueueTime duration, s, parent => WithArangoQueueTime s parent duration
  | WriteOp.DriverFlags value, s, parent => WithDriverFlags s parent value
  | WriteOp.Async, s, parent => WithAsync s parent
  | WriteOp.AsyncID asyncID, s, parent => WithAsyncID s parent asyncID

end store

end connection

namespace connection

open Go context

/-! ## Lemmas on the embedding -/

theorem contextOrBackground_eq (ctx : Context) :
    contextOrBackground ctx = some (ctx.getD Ctx.backgroundCtx) := by
  cases ctx <;> rfl

theorem WithValue_ContextKey (p : Ctx) (s : String) (v : Any) :
    WithValue (some p) (Any.ContextKey s) v
      = Except.ok (some (Ctx.valueCtx p (Any.ContextKey s) v)) := by
  simp [WithValue, Any.Comparable]

theorem run_eq (op : WriteOp) (ctx : Context) :
    op.run ctx
      = Except.ok (some (Ctx.valueCtx (ctx.getD Ctx.backgroundCtx) op.key op.val)) := by
  cases op <;>
    simp only [WriteOp.run, WriteOp.key, WriteOp.val, WithArangoQueueTimeout,
      WithArangoQueueTime, WithDriverFlags, WithAsync, WithAsyncID, contextOrBackground_eq,
      keyUseQueueTimeout, keyMaxQueueTime, keyDriverFlags, keyAsyncRequest, keyAsyncID,
      WithValue_ContextKey]

theorem lookup_getD (ctx : Context) (k : Any) :
    (ctx.getD Ctx.backgroundCtx).Value k = lookup ctx k := by
  cases ctx <;> rfl

theorem lookup_run_same (op : WriteOp) (ctx : Context) :
    ∃ r, op.run ctx = Except.ok r ∧ lookup r op.key = op.val := by
  refine ⟨_, run_eq op ctx, ?_⟩
  simp [lookup, Ctx.Value]

theorem lookup_run_other (op : WriteOp) (ctx : Context) (k : Any) (hk : op.key ≠ k) :
    ∃ r, op.run ctx = Except.ok r ∧ lookup r k = lookup ctx k := by
  refine ⟨_, run_eq op ctx, ?_⟩
  simp [lookup, Ctx.Value, hk, lookup_getD]

theorem lookup_runAll_other (k : Any) (ops : List WriteOp) :
    ∀ ctx : Context, (∀ op ∈ ops, op.key ≠ k) →
      ∃ r, runAll ops ctx = Except.ok r ∧ lookup r k = lookup ctx k := by
  induction ops with
  | nil => intro ctx _; exact ⟨ctx, rfl, rfl⟩
  | cons op ops ih =>
    intro ctx h
    obtain ⟨r1, h1, e1⟩ := lookup_run_other op ctx k (h op (List.mem_cons_self _ _))
    obtain ⟨r, h2, e2⟩ := ih r1 (fun o ho => h o (List.mem_cons_of_mem _ ho))
    exact ⟨r, by simp [runAll, h1, h2], e2.trans e1⟩

theorem runAll_ok (ops : List WriteOp) :
    ∀ ctx : Context, ∃ r, runAll ops ctx = Except.ok r := by
  induction ops with
  | nil => intro ctx; exact ⟨ctx, rfl⟩
  | cons op ops ih =>
    intro ctx
    obtain ⟨r, h⟩ := ih (some (Ctx.valueCtx (ctx.getD Ctx.backgroundCtx) op.key op.val))
    exact ⟨r, by simp [runAll, run_eq, h]⟩

theorem IsAsyncRequest_some (c : Ctx) :
    IsAsyncRequest (some c) = decide (c.Value keyAsyncRequest = Any.bool true) := by
  have key : ∀ v : Any,
      (if v ≠ Any.nil then
        (match v.assertBool with
          | (isAsync, ok) => if ok && isAsync then true else false)
       else false) = decide (v = Any.bool true) := by
    intro v
    cases v <;> simp [Any.assertBool]
  exact key (c.Value keyAsyncRequest)

theorem IsAsyncRequest_eq (ctx : Context) :
    IsAsyncRequest ctx = decide (lookup ctx keyAsyncRequest = Any.bool true) := by
  cases ctx with
  | none => simp [IsAsyncRequest, lookup]
  | some c => exact IsAsyncRequest_some c

theorem HasAsyncID_some (c : Ctx) :
    HasAsyncID (some c) = (c.Value keyAsyncID).assertString := by
  have key : ∀ q : Any,
      (if q ≠ Any.nil then
        (match q.assertString with
          | (v, ok) => if ok then (v, true) else ("", false))
       else ("", false)) = q.assertString := by
    intro q
    cases q <;> simp [Any.assertString]
  exact key (c.Value keyAsyncID)

theorem HasAsyncID_eq (ctx : Context) :
    HasAsyncID ctx = (lookup ctx keyAsyncID).assertString := by
  cases ctx with
  | none => simp [HasAsyncID, lookup, Any.assertString]
  | some c => exact HasAsyncID_some c

theorem key_ne_Async_of_ne (op : WriteOp) (h : op ≠ WriteOp.Async) :
    op.key ≠ keyAsyncRequest := by
  cases op <;> first | exact absurd rfl h | (simp only [WriteOp.key]; decide)

theorem key_ne_AsyncID_of_ne (op : WriteOp) (h : ∀ asyncID, op ≠ WriteOp.AsyncID asyncID) :
    op.key ≠ keyAsyncID := by
  cases op <;> first | exact absurd rfl (h _) | (simp only [WriteOp.key]; decide)

/-! ## Theorems on the read and write operations -/

/-- C1: for every context `c`, the nil context included, `WithAsync c` returns a
context on which `IsAsyncRequest` is `true`; this holds in particular when `c`
already stores an arbitrary value `v` under the async-request key. -/
theorem C1_IsAsyncRequest_WithAsync :
    (∀ c : Context, ∃ r, WithAsync c = Except.ok r ∧ IsAsyncRequest r = true)
    ∧ (∀ (p : Ctx) (v : Any), ∃ r,
        WithAsync (some (Ctx.valueCtx p keyAsyncRequest v)) = Except.ok r
          ∧ IsAsyncRequest r = true) := by
  have main : ∀ c : Context, ∃ r, WithAsync c = Except.ok r ∧ IsAsyncRequest r = true := by
    intro c
    obtain ⟨r, hr, hv⟩ := lookup_run_same WriteOp.Async c
    refine ⟨r, hr, ?_⟩
    rw [IsAsyncRequest_eq]
    exact decide_eq_true hv
  exact ⟨main, fun p v => main _⟩

/-- C2: for every context `c`, the nil context included, and every string `id`, the
empty string included, `WithAsyncID c id` returns a context on which `HasAsyncID`
is `(id, true)`; for the empty string the result `("", true)` differs from the
result `("", false)` that stands for absence. -/
theorem C2_HasAsyncID_WithAsyncID :
    (∀ (c : Context) (id : String), ∃ r,
        WithAsyncID c id = Except.ok r ∧ HasAsyncID r = (id, true))
    ∧ (∀ c : Context, ∃ r,
        WithAsyncID c "" = Except.ok r ∧ HasAsyncID r = ("", true)
          ∧ HasAsyncID r ≠ ("", false)) := by
  have main : ∀ (c : Context) (id : String), ∃ r,
      WithAsyncID c id = Except.ok r ∧ HasAsyncID r = (id, true) := by
    intro c id
    obtain ⟨r, hr, hv⟩ := lookup_run_same (WriteOp.AsyncID id) c
    refine ⟨r, hr, ?_⟩
    have hv2 : lookup r keyAsyncID = Any.string id := hv
    rw [HasAsyncID_eq, hv2]
    rfl
  refine ⟨main, fun c => ?_⟩
  obtain ⟨r, hr, hv⟩ := main c ""
  refine ⟨r, hr, hv, ?_⟩
  rw [hv]
  decide

/-- C3: starting from the nil context or from the empty root, every finite sequence
of write calls that contains no `WithAsync` call runs without a panic and returns a
context on which `IsAsyncRequest` is `false`; the empty sequence gives the nil
context and the empty root themselves. -/
theorem C3_IsAsyncRequest_false_without_WithAsync (start : Context) (ops : List WriteOp)
    (hstart : start = none ∨ start = Background)
    (hops : WriteOp.Async ∉ ops) :
    ∃ r, runAll ops start = Except.ok r ∧ IsAsyncRequest r = false := by
  obtain ⟨r, hr, hv⟩ := lookup_runAll_other keyAsyncRequest ops start
    (fun op hop => key_ne_Async_of_ne op (fun h => hops (h ▸ hop)))
  refine ⟨r, hr, ?_⟩
  have h0 : lookup start keyAsyncRequest = Any.nil := by
    rcases hstart with h | h <;> subst h <;> rfl
  rw [IsAsyncRequest_eq, hv, h0]
  decide

/-- Witness of C3: `WithAsyncID`, `WithDriverFlags`, `WithArangoQueueTime` and
`WithArangoQueueTimeout` applied in turn to the nil context. -/
theorem C3_IsAsyncRequest_false_without_WithAsync_witness :
    WriteOp.Async ∉ [WriteOp.AsyncID "job-42", WriteOp.DriverFlags ["x"],
        WriteOp.ArangoQueueTime 5000000000, WriteOp.ArangoQueueTimeout true]
    ∧ ∃ r, runAll [WriteOp.AsyncID "job-42", WriteOp.DriverFlags ["x"],
        WriteOp.ArangoQueueTime 5000000000, WriteOp.ArangoQueueTimeout true] none = Except.ok r
      ∧ IsAsyncRequest r = false :=
  ⟨by decide,
   C3_IsAsyncRequest_false_without_WithAsync none _ (Or.inl rfl) (by decide)⟩

/-- C4: starting from the nil context or from the empty root, every finite sequence
of write calls that contains no `WithAsyncID` call runs without a panic and returns
a context on which `HasAsyncID` is `("", false)`; the empty sequence gives the nil
context and the empty root themselves. -/
theorem C4_HasAsyncID_absent_without_WithAsyncID (start : Context) (ops : List WriteOp)
    (hstart : start = none ∨ start = Background)
    (hops : ∀ asyncID : String, WriteOp.AsyncID asyncID ∉ ops) :
    ∃ r, runAll ops start = Except.ok r ∧ HasAsyncID r = ("", false) := by
  obtain ⟨r, hr, hv⟩ := lookup_runAll_other keyAsyncID ops start
    (fun op hop => key_ne_AsyncID_of_ne op (fun id h => hops id (h ▸ hop)))
  refine ⟨r, hr, ?_⟩
  have h0 : lookup start keyAsyncID = Any.nil := by
    rcases hstart with h | h <;> subst h <;> rfl
  rw [HasAsyncID_eq, hv, h0]
  rfl

/-- Witness of C4: `WithAsync`, `WithDriverFlags`, `WithArangoQueueTime` and
`WithArangoQueueTimeout` applied in turn to the empty root. -/
theorem C4_HasAsyncID_absent_without_WithAsyncID_witness :
    (∀ asyncID : String, WriteOp.AsyncID asyncID ∉ [WriteOp.Async, WriteOp.DriverFlags ["x"],
        WriteOp.ArangoQueueTime 5000000000, WriteOp.ArangoQueueTimeout false])
    ∧ ∃ r, runAll [WriteOp.Async, WriteOp.DriverFlags ["x"],
        WriteOp.ArangoQueueTime 5000000000, WriteOp.ArangoQueueTimeout false] Background
          = Except.ok r
      ∧ HasAsyncID r = ("", false) :=
  ⟨by simp,
   C4_HasAsyncID_absent_without_WithAsyncID Background _ (Or.inr rfl) (by simp)⟩

/-- C5: writes under different keys do not interfere. Each of the five write
functions leaves every key other than its own reserved key as it is in the parent
(in the empty root when the parent is nil); in particular `WithAsyncID` does not
change `IsAsyncRequest` and `WithAsync` does not change `HasAsyncID`. -/
theorem C5_writes_leave_other_keys :
    (∀ b : Bool, LeavesOtherKeys (fun c => WithArangoQueueTimeout c b) keyUseQueueTimeout)
    ∧ (∀ d : Int, LeavesOtherKeys (fun c => WithArangoQueueTime c d) keyMaxQueueTime)
    ∧ (∀ v : List String, LeavesOtherKeys (fun c => WithDriverFlags c v) keyDriverFlags)
    ∧ LeavesOtherKeys (fun c => WithAsync c) keyAsyncRequest
    ∧ (∀ id : String, LeavesOtherKeys (fun c => WithAsyncID c id) keyAsyncID)
    ∧ (∀ (c : Context) (id : String), ∃ r,
        WithAsyncID c id = Except.ok r ∧ IsAsyncRequest r = IsAsyncRequest c)
    ∧ (∀ c : Context, ∃ r,
        WithAsync c = Except.ok r ∧ HasAsyncID r = HasAsyncID c) := by
  have leaves : ∀ op : WriteOp, LeavesOtherKeys (fun c => op.run c) op.key := by
    intro op c k hk
    refine ⟨_, _, run_eq op c, contextOrBackground_eq c, ?_⟩
    simp [Ctx.Value, Ne.symm hk]
  refine ⟨fun b => leaves (WriteOp.ArangoQueueTimeout b),
    fun d => leaves (WriteOp.ArangoQueueTime d),
    fun v => leaves (WriteOp.DriverFlags v),
    leaves WriteOp.Async,
    fun id => leaves (WriteOp.AsyncID id), ?_, ?_⟩
  · intro c id
    obtain ⟨r, hr, hv⟩ :=
      lookup_run_other (WriteOp.AsyncID id) c keyAsyncRequest (by simp only [WriteOp.key]; decide)
    exact ⟨r, hr, by rw [IsAsyncRequest_eq, IsAsyncRequest_eq, hv]⟩
  · intro c
    obtain ⟨r, hr, hv⟩ :=
      lookup_run_other WriteOp.Async c keyAsyncID (by simp only [WriteOp.key]; decide)
    exact ⟨r, hr, by rw [HasAsyncID_eq, HasAsyncID_eq, hv]⟩

/-- Instance of C5: on top of a parent that stores `true` under the async-request
key, `WithAsyncID` keeps the lookup of that key and the answer of `IsAsyncRequest`,
and `WithAsync` on the nil context keeps `HasAsyncID` at `("", false)`. -/
theorem C5_writes_leave_other_keys_witness :
    keyAsyncRequest ≠ keyAsyncID
    ∧ (∃ r p,
        WithAsyncID (some (Ctx.valueCtx Ctx.backgroundCtx keyAsyncRequest (Any.bool true))) "job-42"
            = Except.ok (some r)
          ∧ contextOrBackground
              (some (Ctx.valueCtx Ctx.backgroundCtx keyAsyncRequest (Any.bool true))) = some p
          ∧ r.Value keyAsyncRequest = p.Value keyAsyncRequest)
    ∧ (∃ r, WithAsync none = Except.ok r ∧ HasAsyncID r = HasAsyncID none) :=
  ⟨by decide,
   C5_writes_leave_other_keys.2.2.2.2.1 "job-42" _ keyAsyncRequest (by decide),
   C5_writes_leave_other_keys.2.2.2.2.2.2 none⟩

/-- C6: the most recent write under a key wins along a chain. For every context `c`
(nil included), writing the max-queue-time twice and looking the key up yields the
second duration, for instance 10s after 5s then 10s (durations are counted in
nanoseconds); writing the async id twice makes `HasAsyncID` return the second id;
both also hold when any finite sequence of write calls runs between the two
writes. -/
theorem C6_last_write_wins :
    (∀ (c : Context) (d1 d2 : Int), ∃ r1 r2,
        WithArangoQueueTime c d1 = Except.ok r1
          ∧ WithArangoQueueTime r1 d2 = Except.ok (some r2)
          ∧ r2.Value keyMaxQueueTime = Any.Duration d2)
    ∧ (∀ c : Context, ∃ r1 r2,
        WithArangoQueueTime c (5 * 1000000000) = Except.ok r1
          ∧ WithArangoQueueTime r1 (10 * 1000000000) = Except.ok (some r2)
          ∧ r2.Value keyMaxQueueTime = Any.Duration (10 * 1000000000))
    ∧ (∀ (c : Context) (a b : String), ∃ r1 r2,
        WithAsyncID c a = Except.ok r1
          ∧ WithAsyncID r1 b = Except.ok r2
          ∧ HasAsyncID r2 = (b, true))
    ∧ (∀ (c : Context) (d1 d2 : Int) (ops : List WriteOp), ∃ r1 r2 r3,
        WithArangoQueueTime c d1 = Except.ok r1
          ∧ runAll ops r1 = Except.ok r2
          ∧ WithArangoQueueTime r2 d2 = Except.ok (some r3)
          ∧ r3.Value keyMaxQueueTime = Any.Duration d2)
    ∧ (∀ (c : Context) (a b : String) (ops : List WriteOp), ∃ r1 r2 r3,
        WithAsyncID c a = Except.ok r1
          ∧ runAll ops r1 = Except.ok r2
          ∧ WithAsyncID r2 b = Except.ok r3
          ∧ HasAsyncID r3 = (b, true)) := by
  have time : ∀ (c : Context) (d : Int), ∃ r,
      WithArangoQueueTime c d = Except.ok (some r)
        ∧ r.Value keyMaxQueueTime = Any.Duration d := by
    intro c d
    refine ⟨_, run_eq (WriteOp.ArangoQueueTime d) c, ?_⟩
    simp [Ctx.Value, WriteOp.key, WriteOp.val]
  have ident : ∀ (c : Context) (b : String), ∃ r,
      WithAsyncID c b = Except.ok r ∧ HasAsyncID r = (b, true) := by
    intro c b
    refine ⟨_, run_eq (WriteOp.AsyncID b) c, ?_⟩
    rw [HasAsyncID_some]
    simp [Ctx.Value, WriteOp.key, WriteOp.val, Any.assertString]
  have timeTwice : ∀ (c : Context) (d1 d2 : Int), ∃ r1 r2,
      WithArangoQueueTime c d1 = Except.ok r1
        ∧ WithArangoQueueTime r1 d2 = Except.ok (some r2)
        ∧ r2.Value keyMaxQueueTime = Any.Duration d2 := by
    intro c d1 d2
    obtain ⟨r1, h1, -⟩ := time c d1
    obtain ⟨r2, h2, v2⟩ := time (some r1) d2
    exact ⟨_, r2, h1, h2, v2⟩
  refine ⟨timeTwice, fun c => timeTwice c _ _, ?_, ?_, ?_⟩
  · intro c a b
    obtain ⟨r1, h1, -⟩ := ident c a
    obtain ⟨r2, h2, v2⟩ := ident r1 b
    exact ⟨r1, r2, h1, h2, v2⟩
  · intro c d1 d2 ops
    obtain ⟨r1, h1, -⟩ := time c d1
    obtain ⟨r2, h2⟩ := runAll_ok ops (some r1)
    obtain ⟨r3, h3, v3⟩ := time r2 d2
    exact ⟨_, r2, r3, h1, h2, h3, v3⟩
  · intro c a b ops
    obtain ⟨r1, h1, -⟩ := ident c a
    obtain ⟨r2, h2⟩ := runAll_ok ops r1
    obtain ⟨r3, h3, v3⟩ := ident r2 b
    exact ⟨r1, r2, r3, h1, h2, h3, v3⟩

/-- C7: null-parent normalization. Each of the five write functions, called with the
nil parent, returns without a panic a non-nil context, the same one as when called
with `context.Background()`; `WithDriverFlags` on the nil parent with the flags
`["x"]` returns a context whose lookup of the driver-flags key is exactly `["x"]`. -/
theorem C7_nil_parent_is_Background :
    (∀ b : Bool, WithArangoQueueTimeout none b = WithArangoQueueTimeout Background b
        ∧ ∃ r, WithArangoQueueTimeout none b = Except.ok (some r))
    ∧ (∀ d : Int, WithArangoQueueTime none d = WithArangoQueueTime Background d
        ∧ ∃ r, WithArangoQueueTime none d = Except.ok (some r))
    ∧ (∀ v : List String, WithDriverFlags none v = WithDriverFlags Background v
        ∧ ∃ r, WithDriverFlags none v = Except.ok (some r))
    ∧ (WithAsync none = WithAsync Background
        ∧ ∃ r, WithAsync none = Except.ok (some r))
    ∧ (∀ id : String, WithAsyncID none id = WithAsyncID Background id
        ∧ ∃ r, WithAsyncID none id = Except.ok (some r))
    ∧ contextOrBackground none = Background
    ∧ (∃ r, WithDriverFlags none ["x"] = Except.ok (some r)
        ∧ r.Value keyDriverFlags = Any.strings ["x"]) := by
  have norm : ∀ op : WriteOp, op.run none = op.run Background
      ∧ ∃ r, op.run none = Except.ok (some r) := by
    intro op
    refine ⟨?_, _, run_eq op none⟩
    rw [run_eq, run_eq]
    rfl
  refine ⟨fun b => norm (WriteOp.ArangoQueueTimeout b),
    fun d => norm (WriteOp.ArangoQueueTime d),
    fun v => norm (WriteOp.DriverFlags v),
    norm WriteOp.Async,
    fun id => norm (WriteOp.AsyncID id), rfl, ?_⟩
  refine ⟨_, run_eq (WriteOp.DriverFlags ["x"]) none, ?_⟩
  simp [Ctx.Value, WriteOp.key, WriteOp.val]

/-- C8: `IsAsyncRequest` is a total function (it has no error branch) that returns
`true` exactly when the context is non-nil and its lookup of the async-request key
is the boolean `true`. It returns `false` on the nil context, and on a non-nil
context whose lookup is nil (key missing, or nil stored), the boolean `false`, or a
value of a type other than `bool`; so a context where the key is not set and one
where it is set to `false` get the same answer. -/
theorem C8_IsAsyncRequest_true_iff :
    (∀ ctx : Context, IsAsyncRequest ctx = true
        ↔ ∃ c, ctx = some c ∧ c.Value keyAsyncRequest = Any.bool true)
    ∧ IsAsyncRequest none = false
    ∧ (∀ c : Ctx, c.Value keyAsyncRequest = Any.nil → IsAsyncRequest (some c) = false)
    ∧ (∀ c : Ctx, c.Value keyAsyncRequest = Any.bool false → IsAsyncRequest (some c) = false)
    ∧ (∀ c : Ctx, (∀ b : Bool, c.Value keyAsyncRequest ≠ Any.bool b) →
        IsAsyncRequest (some c) = false)
    ∧ (∀ p : Ctx, IsAsyncRequest (some (Ctx.valueCtx p keyAsyncRequest Any.nil)) = false)
    ∧ (∀ p : Ctx,
        IsAsyncRequest (some (Ctx.valueCtx p keyAsyncRequest (Any.bool false))) = false)
    ∧ (∀ (p : Ctx) (v : Any), (∀ b : Bool, v ≠ Any.bool b) →
        IsAsyncRequest (some (Ctx.valueCtx p keyAsyncRequest v)) = false)
    ∧ (∀ c1 c2 : Ctx, c1.Value keyAsyncRequest = Any.nil →
        c2.Value keyAsyncRequest = Any.bool false →
        IsAsyncRequest (some c1) = IsAsyncRequest (some c2)) := by
  have off : ∀ c : Ctx, c.Value keyAsyncRequest ≠ Any.bool true →
      IsAsyncRequest (some c) = false := by
    intro c h
    rw [IsAsyncRequest_some]
    exact decide_eq_false h
  have stored : ∀ (p : Ctx) (v : Any),
      (Ctx.valueCtx p keyAsyncRequest v).Value keyAsyncRequest = v := by
    intro p v
    simp [Ctx.Value]
  refine ⟨?_, rfl, ?_, ?_, ?_, ?_, ?_, ?_, ?_⟩
  · intro ctx
    cases ctx with
    | none => simp [IsAsyncRequest]
    | some c => simp [IsAsyncRequest_some]
  · intro c h
    exact off c (by rw [h]; decide)
  · intro c h
    exact off c (by rw [h]; decide)
  · intro c h
    exact off c (h true)
  · intro p
    exact off _ (by rw [stored]; decide)
  · intro p
    exact off _ (by rw [stored]; decide)
  · intro p v h
    exact off _ (by rw [stored]; exact h true)
  · intro c1 c2 h1 h2
    rw [off c1 (by rw [h1]; decide), off c2 (by rw [h2]; decide)]

/-- Instances of C8: `IsAsyncRequest` is `false` on the empty root (key not set), on
a link that stores `false`, on a link that stores the string `"true"`, and `true` on
a link that stores the boolean `true`. -/
theorem C8_IsAsyncRequest_true_iff_witness :
    IsAsyncRequest (some Ctx.backgroundCtx) = false
    ∧ IsAsyncRequest (some Ctx.backgroundCtx)
        = IsAsyncRequest (some (Ctx.valueCtx Ctx.backgroundCtx keyAsyncRequest (Any.bool false)))
    ∧ IsAsyncRequest (some (Ctx.valueCtx Ctx.backgroundCtx keyAsyncRequest (Any.string "true")))
        = false
    ∧ IsAsyncRequest (some (Ctx.valueCtx Ctx.backgroundCtx keyAsyncRequest (Any.bool true)))
        = true :=
  ⟨C8_IsAsyncRequest_true_iff.2.2.1 Ctx.backgroundCtx rfl,
   C8_IsAsyncRequest_true_iff.2.2.2.2.2.2.2.2 Ctx.backgroundCtx
     (Ctx.valueCtx Ctx.backgroundCtx keyAsyncRequest (Any.bool false)) rfl (by decide),
   C8_IsAsyncRequest_true_iff.2.2.2.2.2.2.2.1 Ctx.backgroundCtx (Any.string "true")
     (by simp),
   (C8_IsAsyncRequest_true_iff.1 _).2 ⟨_, rfl, by decide⟩⟩

/-- C9: `HasAsyncID` is a total function (it has no error branch) that returns
`(s, true)` exactly when the context is non-nil and its lookup of the async-id key
is the string `s`. In every other case it returns `("", false)`: on the nil context,
and on a non-nil context whose lookup is nil (key missing, or nil stored) or a value
of a type other than `string`; so a type mismatch gets the same answer as
absence. -/
theorem C9_HasAsyncID_present_iff :
    (∀ (ctx : Context) (s : String), HasAsyncID ctx = (s, true)
        ↔ ∃ c, ctx = some c ∧ c.Value keyAsyncID = Any.string s)
    ∧ (∀ ctx : Context, (¬ ∃ c s, ctx = some c ∧ c.Value keyAsyncID = Any.string s) →
        HasAsyncID ctx = ("", false))
    ∧ HasAsyncID none = ("", false)
    ∧ (∀ c : Ctx, c.Value keyAsyncID = Any.nil → HasAsyncID (some c) = ("", false))
    ∧ (∀ c : Ctx, (∀ s : String, c.Value keyAsyncID ≠ Any.string s) →
        HasAsyncID (some c) = ("", false))
    ∧ (∀ p : Ctx, HasAsyncID (some (Ctx.valueCtx p keyAsyncID Any.nil)) = ("", false))
    ∧ (∀ (p : Ctx) (v : Any), (∀ s : String, v ≠ Any.string s) →
        HasAsyncID (some (Ctx.valueCtx p keyAsyncID v)) = ("", false))
    ∧ (∀ c1 c2 : Ctx, c1.Value keyAsyncID = Any.nil →
        (∀ s : String, c2.Value keyAsyncID ≠ Any.string s) →
        HasAsyncID (some c1) = HasAsyncID (some c2)) := by
  have miss : ∀ q : Any, (∀ s : String, q ≠ Any.string s) →
      q.assertString = ("", false) := by
    intro q h
    cases q with
    | string s => exact absurd rfl (h s)
    | _ => rfl
  have off : ∀ c : Ctx, (∀ s : String, c.Value keyAsyncID ≠ Any.string s) →
      HasAsyncID (some c) = ("", false) := by
    intro c h
    rw [HasAsyncID_some]
    exact miss _ h
  have stored : ∀ (p : Ctx) (v : Any), (Ctx.valueCtx p keyAsyncID v).Value keyAsyncID = v := by
    intro p v
    simp [Ctx.Value]
  refine ⟨?_, ?_, rfl, ?_, off, ?_, ?_, ?_⟩
  · intro ctx s
    cases ctx with
    | none => simp [HasAsyncID]
    | some c =>
      have hit : ∀ q : Any, q.assertString = (s, true) ↔ q = Any.string s := by
        intro q
        cases q <;> simp [Any.assertString]
      rw [HasAsyncID_some, hit]
      simp
  · intro ctx h
    cases ctx with
    | none => rfl
    | some c => exact off c (fun s hs => h ⟨c, s, rfl, hs⟩)
  · intro c h
    exact off c (by rw [h]; intro s; exact Any.noConfusion)
  · intro p
    exact off _ (by rw [stored]; intro s; exact Any.noConfusion)
  · intro p v h
    exact off _ (by rw [stored]; exact h)
  · intro c1 c2 h1 h2
    rw [off c1 (by rw [h1]; intro s; exact Any.noConfusion), off c2 h2]

/-- Instances of C9: `HasAsyncID` is `("", false)` on the empty root (key not set)
and on a link that stores the boolean `true` under the async-id key, the two
answers being the same, and `("job-42", true)` on a link that stores the string
`"job-42"`. -/
theorem C9_HasAsyncID_present_iff_witness :
    HasAsyncID (some Ctx.backgroundCtx) = ("", false)
    ∧ HasAsyncID (some (Ctx.valueCtx Ctx.backgroundCtx keyAsyncID (Any.bool true))) = ("", false)
    ∧ HasAsyncID (some Ctx.backgroundCtx)
        = HasAsyncID (some (Ctx.valueCtx Ctx.backgroundCtx keyAsyncID (Any.bool true)))
    ∧ HasAsyncID (some (Ctx.valueCtx Ctx.backgroundCtx keyAsyncID (Any.string "job-42")))
        = ("job-42", true) :=
  ⟨C9_HasAsyncID_present_iff.2.2.2.1 Ctx.backgroundCtx rfl,
   C9_HasAsyncID_present_iff.2.2.2.2.2.2.1 Ctx.backgroundCtx (Any.bool true)
     (by simp),
   C9_HasAsyncID_present_iff.2.2.2.2.2.2.2 Ctx.backgroundCtx
     (Ctx.valueCtx Ctx.backgroundCtx keyAsyncID (Any.bool true)) rfl (by simp [Ctx.Value]),
   (C9_HasAsyncID_present_iff.1 _ _).2 ⟨_, rfl, by decide⟩⟩

/-- C10: the async marker and the async id can be set together in either order. For
every context `c` (nil included) and string `id`, both
`WithAsync (WithAsyncID c id)` and `WithAsyncID (WithAsync c) id` are returned
without a panic and satisfy `IsAsyncRequest = true` and `HasAsyncID = (id, true)`;
so does the instance with the nil context and the id `"job-42"`. -/
theorem C10_async_marker_and_id_together :
    (∀ (c : Context) (id : String), ∃ r1 ctx1,
        WithAsyncID c id = Except.ok r1 ∧ WithAsync r1 = Except.ok ctx1
          ∧ IsAsyncRequest ctx1 = true ∧ HasAsyncID ctx1 = (id, true))
    ∧ (∀ (c : Context) (id : String), ∃ r2 ctx2,
        WithAsync c = Except.ok r2 ∧ WithAsyncID r2 id = Except.ok ctx2
          ∧ IsAsyncRequest ctx2 = true ∧ HasAsyncID ctx2 = (id, true))
    ∧ (∃ r1 ctx,
        WithAsyncID none "job-42" = Except.ok r1 ∧ WithAsync r1 = Except.ok ctx
          ∧ IsAsyncRequest ctx = true ∧ HasAsyncID ctx = ("job-42", true)) := by
  have first : ∀ (c : Context) (id : String), ∃ r1 ctx1,
      WithAsyncID c id = Except.ok r1 ∧ WithAsync r1 = Except.ok ctx1
        ∧ IsAsyncRequest ctx1 = true ∧ HasAsyncID ctx1 = (id, true) := by
    intro c id
    refine ⟨_, _, run_eq (WriteOp.AsyncID id) c, run_eq WriteOp.Async _, ?_, ?_⟩
    · rw [IsAsyncRequest_some]
      simp [Ctx.Value, WriteOp.key, WriteOp.val]
    · rw [HasAsyncID_some]
      have hne : keyAsyncRequest ≠ keyAsyncID := by decide
      simp [Ctx.Value, WriteOp.key, WriteOp.val, hne, Any.assertString]
  refine ⟨first, ?_, first none "job-42"⟩
  intro c id
  refine ⟨_, _, run_eq WriteOp.Async c, run_eq (WriteOp.AsyncID id) _, ?_, ?_⟩
  · rw [IsAsyncRequest_some]
    have hne : keyAsyncID ≠ keyAsyncRequest := by decide
    simp [Ctx.Value, WriteOp.key, WriteOp.val, hne]
  · rw [HasAsyncID_some]
    simp [Ctx.Value, WriteOp.key, WriteOp.val, Any.assertString]

/-! ## Lemmas on the embedding over the store -/

theorem Store_Value_cons (o : ValueCtx) (s : Store) (c : Ref) (k : Any) (h : c.ValidIn s) :
    Store.Value (o :: s) c k = Store.Value s c k := by
  cases c with
  | valueCtx addr =>
    have hne : addr ≠ s.length := Nat.ne_of_lt h
    simp [Store.Value, hne]
  | _ => simp [Store.Value]

theorem Store_denote_cons (o : ValueCtx) (s : Store) (c : Ref) (h : c.ValidIn s) :
    Store.denote (o :: s) c = Store.denote s c := by
  cases c with
  | valueCtx addr =>
    have hne : addr ≠ s.length := Nat.ne_of_lt h
    simp [Store.denote, hne]
  | _ => simp [Store.denote]

theorem Store_Value_denote (k : Any) (s : Store) :
    ∀ (c : Ref) (x : Ctx), Store.denote s c = some x → Store.Value s c k = x.Value k := by
  induction s with
  | nil =>
    intro c x h
    cases c <;> simp [Store.denote] at h <;> subst h <;> simp [Store.Value, Ctx.Value]
  | cons o rest ih =>
    intro c x h
    cases c with
    | valueCtx addr =>
      by_cases ha : addr = rest.length
      · simp only [Store.denote, ha, if_true] at h
        cases hp : Store.denote rest o.Context with
        | none => simp [hp] at h
        | some p =>
          simp only [hp, Option.some.injEq] at h
          subst h
          simp [Store.Value, ha, Ctx.Value, ih o.Context p hp]
      · simp only [Store.denote, ha, if_false] at h
        simp [Store.Value, ha, ih _ x h]
    | nil => simp [Store.denote] at h
    | backgroundCtx =>
      simp [Store.denote] at h
      subst h
      simp [Store.Value, Ctx.Value]
    | custom value =>
      simp [Store.denote] at h
      subst h
      simp [Store.Value, Ctx.Value]

theorem store_run_eq (op : WriteOp) (s : Store) (c : Ref) :
    store.run op s c
      = Except.ok (ValueCtx.mk (store.contextOrBackground c) op.key op.val :: s,
          Ref.valueCtx s.length) := by
  cases op <;> cases c <;>
    simp [store.run, store.WithArangoQueueTimeout, store.WithArangoQueueTime,
      store.WithDriverFlags, store.WithAsync, store.WithAsyncID, store.contextOrBackground,
      Store.WithValue, WriteOp.key, WriteOp.val, keyUseQueueTimeout, keyMaxQueueTime,
      keyDriverFlags, keyAsyncRequest, keyAsyncID, Any.Comparable]

theorem store_IsAsyncRequest_eq (s : Store) (c : Ref) :
    store.IsAsyncRequest s c = decide (Store.Value s c keyAsyncRequest = Any.bool true) := by
  have key : ∀ v : Any,
      (if v ≠ Any.nil then
        (match v.assertBool with
          | (isAsync, ok) => if ok && isAsync then true else false)
       else false) = decide (v = Any.bool true) := by
    intro v
    cases v <;> simp [Any.assertBool]
  cases c with
  | nil => simp [store.IsAsyncRequest, Store.Value]
  | _ => exact key _

theorem store_HasAsyncID_eq (s : Store) (c : Ref) :
    store.HasAsyncID s c = (Store.Value s c keyAsyncID).assertString := by
  have key : ∀ q : Any,
      (if q ≠ Any.nil then
        (match q.assertString with
          | (v, ok) => if ok then (v, true) else ("", false))
       else ("", false)) = q.assertString := by
    intro q
    cases q <;> simp [Any.assertString]
  cases c with
  | nil => simp [store.HasAsyncID, Store.Value, Any.assertString]
  | _ => exact key _

/-- The embedding over the store agrees with the embedding on context values: a
write call on a context that stands for the context value `x` returns a pointer that
stands for the result of the same call on `x`. -/
theorem store_run_denote (op : WriteOp) (s : Store) (c : Ref)
    (h : c = Ref.nil ∨ (Store.denote s c).isSome) :
    ∃ s2 c2, store.run op s c = Except.ok (s2, c2)
      ∧ op.run (Store.denote s c) = Except.ok (Store.denote s2 c2) := by
  refine ⟨_, _, store_run_eq op s c, ?_⟩
  rw [run_eq]
  rcases h with h | h
  · subst h
    simp [Store.denote, store.contextOrBackground]
  · obtain ⟨x, hx⟩ := Option.isSome_iff_exists.mp h
    have hc : store.contextOrBackground c = c := by
      cases c <;> simp [store.contextOrBackground]
      simp [Store.denote] at hx
    simp [Store.denote, hc, hx]

/-! ## Theorems on derivation, typing and the reserved keys -/

/-- C11: derivation is non-mutating. For every store, every context `c1` that exists
in it (the nil context included) and each of the five write calls, the call returns
without a panic a new store and a derived context `c2`, and in the new store every
lookup on every context that existed before, `c1` included, gives what it gave
before; so `IsAsyncRequest c1` and `HasAsyncID c1` are unchanged. For `WithAsync`,
`IsAsyncRequest c2` is `true`, and `IsAsyncRequest c1` is still `false` if it was
`false`. -/
theorem C11_derivation_does_not_mutate (s : Store) (c1 : Ref) (op : WriteOp)
    (hc1 : c1.ValidIn s) :
    ∃ s2 c2, store.run op s c1 = Except.ok (s2, c2)
      ∧ (∀ (c : Ref) (k : Any), c.ValidIn s → Store.Value s2 c k = Store.Value s c k)
      ∧ (∀ k : Any, Store.Value s2 c1 k = Store.Value s c1 k)
      ∧ store.IsAsyncRequest s2 c1 = store.IsAsyncRequest s c1
      ∧ store.HasAsyncID s2 c1 = store.HasAsyncID s c1
      ∧ (op = WriteOp.Async → store.IsAsyncRequest s2 c2 = true)
      ∧ (op = WriteOp.Async → store.IsAsyncRequest s c1 = false →
          store.IsAsyncRequest s2 c1 = false ∧ store.IsAsyncRequest s2 c2 = true) := by
  have frame : ∀ (c : Ref) (k : Any), c.ValidIn s →
      Store.Value (ValueCtx.mk (store.contextOrBackground c1) op.key op.val :: s) c k
        = Store.Value s c k :=
    fun c k hc => Store_Value_cons _ s c k hc
  have hAsync : store.IsAsyncRequest
      (ValueCtx.mk (store.contextOrBackground c1) op.key op.val :: s) c1
        = store.IsAsyncRequest s c1 := by
    rw [store_IsAsyncRequest_eq, store_IsAsyncRequest_eq, frame c1 _ hc1]
  have hID : store.HasAsyncID
      (ValueCtx.mk (store.contextOrBackground c1) op.key op.val :: s) c1
        = store.HasAsyncID s c1 := by
    rw [store_HasAsyncID_eq, store_HasAsyncID_eq, frame c1 _ hc1]
  have hnew : op = WriteOp.Async → store.IsAsyncRequest
      (ValueCtx.mk (store.contextOrBackground c1) op.key op.val :: s)
      (Ref.valueCtx s.length) = true := by
    intro h
    subst h
    rw [store_IsAsyncRequest_eq]
    simp [Store.Value, WriteOp.key, WriteOp.val]
  refine ⟨_, _, store_run_eq op s c1, frame, fun k => frame c1 k hc1, hAsync, hID, hnew, ?_⟩
  intro h hfalse
  exact ⟨hAsync.trans hfalse, hnew h⟩

/-- Witness of C11: in a store with one object, made by `WithAsyncID` on the empty
root, `WithAsync` on the pointer to that object returns a derived context that is
an async request, and the parent is still not one and still has its async id. -/
theorem C11_derivation_does_not_mutate_witness :
    (Ref.valueCtx 0).ValidIn [ValueCtx.mk Ref.backgroundCtx keyAsyncID (Any.string "job-42")]
    ∧ store.IsAsyncRequest [ValueCtx.mk Ref.backgroundCtx keyAsyncID (Any.string "job-42")]
        (Ref.valueCtx 0) = false
    ∧ ∃ s2 c2,
        store.run WriteOp.Async
            [ValueCtx.mk Ref.backgroundCtx keyAsyncID (Any.string "job-42")] (Ref.valueCtx 0)
          = Except.ok (s2, c2)
        ∧ store.IsAsyncRequest s2 c2 = true
        ∧ store.IsAsyncRequest s2 (Ref.valueCtx 0) = false
        ∧ store.HasAsyncID s2 (Ref.valueCtx 0) = ("job-42", true) := by
  have hv : (Ref.valueCtx 0).ValidIn
      [ValueCtx.mk Ref.backgroundCtx keyAsyncID (Any.string "job-42")] := Nat.zero_lt_one
  have h0 : store.IsAsyncRequest
      [ValueCtx.mk Ref.backgroundCtx keyAsyncID (Any.string "job-42")] (Ref.valueCtx 0)
        = false := by decide
  have h1 : store.HasAsyncID
      [ValueCtx.mk Ref.backgroundCtx keyAsyncID (Any.string "job-42")] (Ref.valueCtx 0)
        = ("job-42", true) := by decide
  obtain ⟨s2, c2, hrun, -, -, hA, hI, hnew, -⟩ :=
    C11_derivation_does_not_mutate _ (Ref.valueCtx 0) WriteOp.Async hv
  exact ⟨hv, h0, s2, c2, hrun, hnew rfl, hA.trans h0, hI.trans h1⟩

theorem runAll_cons (op : WriteOp) (ops : List WriteOp) (ctx : Context) :
    runAll (op :: ops) ctx
      = runAll ops (some (Ctx.valueCtx (ctx.getD Ctx.backgroundCtx) op.key op.val)) := by
  simp [runAll, run_eq]

/-- A property of the value under the key `k` that every write under `k` establishes
is kept by every finite sequence of write calls. -/
theorem lookup_runAll_keeps (k : Any) (Q : Any → Prop)
    (hQ : ∀ op : WriteOp, op.key = k → Q op.val) (ops : List WriteOp) :
    ∀ ctx r : Context, runAll ops ctx = Except.ok r → Q (lookup ctx k) → Q (lookup r k) := by
  induction ops with
  | nil =>
    intro ctx r h hq
    simp only [runAll, Except.ok.injEq] at h
    exact h ▸ hq
  | cons op ops ih =>
    intro ctx r h hq
    rw [runAll_cons] at h
    refine ih _ r h ?_
    by_cases hk : op.key = k
    · simpa [lookup, Ctx.Value, hk] using hQ op hk
    · simpa [lookup, Ctx.Value, hk, lookup_getD] using hq

/-- C12: typed-value invariant. Starting from the nil context or from the empty
root, every finite sequence of the five write calls runs without a panic and
returns a context in which the lookup of each reserved key is either nil (no value)
or a value of the type of that key: a boolean for use-queue-timeout, a duration for
max-queue-time, a sequence of strings for driver-flags, a boolean for async-request
and a string for async-id. Hence, when the lookup that `IsAsyncRequest` or
`HasAsyncID` makes is not nil, its type assertion succeeds. -/
theorem C12_typed_value_invariant (start : Context) (ops : List WriteOp)
    (hstart : start = none ∨ start = Background) :
    ∃ r, runAll ops start = Except.ok r
      ∧ (lookup r keyUseQueueTimeout = Any.nil
          ∨ ∃ b : Bool, lookup r keyUseQueueTimeout = Any.bool b)
      ∧ (lookup r keyMaxQueueTime = Any.nil
          ∨ ∃ d : Int, lookup r keyMaxQueueTime = Any.Duration d)
      ∧ (lookup r keyDriverFlags = Any.nil
          ∨ ∃ v : List String, lookup r keyDriverFlags = Any.strings v)
      ∧ (lookup r keyAsyncRequest = Any.nil
          ∨ ∃ b : Bool, lookup r keyAsyncRequest = Any.bool b)
      ∧ (lookup r keyAsyncID = Any.nil
          ∨ ∃ id : String, lookup r keyAsyncID = Any.string id)
      ∧ (lookup r keyAsyncRequest ≠ Any.nil → (lookup r keyAsyncRequest).assertBool.2 = true)
      ∧ (lookup r keyAsyncID ≠ Any.nil → (lookup r keyAsyncID).assertString.2 = true) := by
  obtain ⟨r, hr⟩ := runAll_ok ops start
  have h0 : ∀ k : Any, lookup start k = Any.nil := by
    intro k
    rcases hstart with h | h <;> subst h <;> rfl
  have keep : ∀ (k : Any) (P : Any → Prop), (∀ op : WriteOp, op.key = k → P op.val) →
      (lookup r k = Any.nil ∨ P (lookup r k)) := by
    intro k P hP
    exact lookup_runAll_keeps k (fun v => v = Any.nil ∨ P v) (fun op h => Or.inr (hP op h))
      ops start r hr (Or.inl (h0 k))
  have t1 := keep keyUseQueueTimeout (fun v => ∃ b : Bool, v = Any.bool b) (by
    intro op h
    cases op <;> first | exact ⟨_, rfl⟩ | exact absurd h (by simp only [WriteOp.key]; decide))
  have t2 := keep keyMaxQueueTime (fun v => ∃ d : Int, v = Any.Duration d) (by
    intro op h
    cases op <;> first | exact ⟨_, rfl⟩ | exact absurd h (by simp only [WriteOp.key]; decide))
  have t3 := keep keyDriverFlags (fun v => ∃ l : List String, v = Any.strings l) (by
    intro op h
    cases op <;> first | exact ⟨_, rfl⟩ | exact absurd h (by simp only [WriteOp.key]; decide))
  have t4 := keep keyAsyncRequest (fun v => ∃ b : Bool, v = Any.bool b) (by
    intro op h
    cases op <;> first | exact ⟨_, rfl⟩ | exact absurd h (by simp only [WriteOp.key]; decide))
  have t5 := keep keyAsyncID (fun v => ∃ id : String, v = Any.string id) (by
    intro op h
    cases op <;> first | exact ⟨_, rfl⟩ | exact absurd h (by simp only [WriteOp.key]; decide))
  refine ⟨r, hr, t1, t2, t3, t4, t5, ?_, ?_⟩
  · intro hne
    rcases t4 with h | ⟨b, h⟩
    · exact absurd h hne
    · rw [h]; rfl
  · intro hne
    rcases t5 with h | ⟨id, h⟩
    · exact absurd h hne
    · rw [h]; rfl

/-- Witness of C12: the five writes applied in turn to the nil context. -/
theorem C12_typed_value_invariant_witness :
    ∃ r, runAll [WriteOp.ArangoQueueTimeout false, WriteOp.ArangoQueueTime 5000000000,
          WriteOp.DriverFlags ["x"], WriteOp.Async, WriteOp.AsyncID "job-42"] none
        = Except.ok r
      ∧ lookup r keyUseQueueTimeout = Any.bool false
      ∧ lookup r keyMaxQueueTime = Any.Duration 5000000000
      ∧ lookup r keyDriverFlags = Any.strings ["x"]
      ∧ lookup r keyAsyncRequest = Any.bool true
      ∧ lookup r keyAsyncID = Any.string "job-42" := by
  obtain ⟨r, hr, -⟩ := C12_typed_value_invariant none
    [WriteOp.ArangoQueueTimeout false, WriteOp.ArangoQueueTime 5000000000,
      WriteOp.DriverFlags ["x"], WriteOp.Async, WriteOp.AsyncID "job-42"] (Or.inl rfl)
  refine ⟨r, hr, ?_⟩
  simp only [runAll_cons] at hr
  simp only [runAll, Except.ok.injEq] at hr
  subst hr
  decide

/-- C13: `WithArangoQueueTimeout` records the flag as given. For every context `c`
(nil included) and boolean `b`, `false` as well as `true`, the call returns without
a panic a non-nil context whose lookup of the use-queue-timeout key is the boolean
`b`. -/
theorem C13_WithArangoQueueTimeout_records_flag :
    (∀ (c : Context) (b : Bool), ∃ r,
        WithArangoQueueTimeout c b = Except.ok (some r)
          ∧ r.Value keyUseQueueTimeout = Any.bool b)
    ∧ (∀ c : Context, ∃ r,
        WithArangoQueueTimeout c false = Except.ok (some r)
          ∧ r.Value keyUseQueueTimeout = Any.bool false)
    ∧ (∀ c : Context, ∃ r,
        WithArangoQueueTimeout c true = Except.ok (some r)
          ∧ r.Value keyUseQueueTimeout = Any.bool true) := by
  have main : ∀ (c : Context) (b : Bool), ∃ r,
      WithArangoQueueTimeout c b = Except.ok (some r)
        ∧ r.Value keyUseQueueTimeout = Any.bool b := by
    intro c b
    refine ⟨_, run_eq (WriteOp.ArangoQueueTimeout b) c, ?_⟩
    simp [Ctx.Value, WriteOp.key, WriteOp.val]
  exact ⟨main, fun c => main c false, fun c => main c true⟩

/-- C14: the five reserved context keys are pairwise distinct, so two write calls
that store under the same key are calls of the same write function. -/
theorem C14_reserved_keys_distinct :
    [keyUseQueueTimeout, keyMaxQueueTime, keyDriverFlags, keyAsyncRequest, keyAsyncID].Nodup
    ∧ (∀ op1 op2 : WriteOp, op1.key = op2.key → op1.SameFunction op2) := by
  refine ⟨by decide, ?_⟩
  intro op1 op2 h
  cases op1 <;> cases op2 <;>
    first
    | exact True.intro
    | exact absurd h (by simp only [WriteOp.key]; decide)

/-- C15: the async marker cannot be cleared through the write operations. For every
context `c` with `IsAsyncRequest c = true`, every finite sequence of the five write
calls runs without a panic and returns a context on which `IsAsyncRequest` is still
`true`; the only value a write call stores under the async-request key is the
boolean `true`. -/
theorem C15_async_marker_stays (c : Context) (ops : List WriteOp)
    (hc : IsAsyncRequest c = true) :
    (∃ r, runAll ops c = Except.ok r ∧ IsAsyncRequest r = true)
    ∧ (∀ op : WriteOp, op.key = keyAsyncRequest → op.val = Any.bool true) := by
  have stores : ∀ op : WriteOp, op.key = keyAsyncRequest → op.val = Any.bool true := by
    intro op h
    cases op <;> first | rfl | exact absurd h (by simp only [WriteOp.key]; decide)
  obtain ⟨r, hr⟩ := runAll_ok ops c
  refine ⟨⟨r, hr, ?_⟩, stores⟩
  rw [IsAsyncRequest_eq] at hc ⊢
  exact decide_eq_true
    (lookup_runAll_keeps keyAsyncRequest (fun v => v = Any.bool true) stores ops c r hr
      (of_decide_eq_true hc))

/-- Witness of C15: after `WithAsync` on the nil context, the four other writes and
a second `WithAsync` leave `IsAsyncRequest` at `true`. -/
theorem C15_async_marker_stays_witness :
    IsAsyncRequest (some (Ctx.valueCtx Ctx.backgroundCtx keyAsyncRequest (Any.bool true))) = true
    ∧ ∃ r, runAll [WriteOp.AsyncID "job-42", WriteOp.ArangoQueueTimeout false,
          WriteOp.ArangoQueueTime 5000000000, WriteOp.DriverFlags ["x"], WriteOp.Async]
          (some (Ctx.valueCtx Ctx.backgroundCtx keyAsyncRequest (Any.bool true)))
        = Except.ok r
      ∧ IsAsyncRequest r = true :=
  ⟨by decide,
   (C15_async_marker_stays
      (some (Ctx.valueCtx Ctx.backgroundCtx keyAsyncRequest (Any.bool true))) _
      (by decide)).1⟩

theorem WithValue_string (p : Ctx) (s : String) (v : Any) :
    WithValue (some p) (Any.string s) v
      = Except.ok (some (Ctx.valueCtx p (Any.string s) v)) := by
  simp [WithValue, Any.Comparable]

/-- C16: reads consult only the nearest value stored under the key. On top of the
result of `WithAsync`, on which `IsAsyncRequest` is `true`, a link that stores under
the async-request key any value other than the boolean `true` (the boolean `false`,
nil, a non-boolean such as the string `"true"`) makes `IsAsyncRequest` return
`false`; on top of the result of `WithAsyncID`, on which `HasAsyncID` returns the
id, a link that stores under the async-id key a value that is not a string (nil, a
boolean) makes `HasAsyncID` return `("", false)`. -/
theorem C16_reads_stop_at_nearest_value :
    (∀ (c : Context) (v : Any), v ≠ Any.bool true → ∃ r1 r2,
        WithAsync c = Except.ok r1 ∧ IsAsyncRequest r1 = true
          ∧ WithValue r1 keyAsyncRequest v = Except.ok r2 ∧ IsAsyncRequest r2 = false)
    ∧ (∀ (c : Context) (id : String) (v : Any), (∀ s : String, v ≠ Any.string s) → ∃ r1 r2,
        WithAsyncID c id = Except.ok r1 ∧ HasAsyncID r1 = (id, true)
          ∧ WithValue r1 keyAsyncID v = Except.ok r2 ∧ HasAsyncID r2 = ("", false))
    ∧ IsAsyncRequest (some (Ctx.valueCtx
        (Ctx.valueCtx Ctx.backgroundCtx keyAsyncRequest (Any.bool true))
        keyAsyncRequest (Any.bool false))) = false
    ∧ IsAsyncRequest (some (Ctx.valueCtx
        (Ctx.valueCtx Ctx.backgroundCtx keyAsyncRequest (Any.bool true))
        keyAsyncRequest Any.nil)) = false
    ∧ IsAsyncRequest (some (Ctx.valueCtx
        (Ctx.valueCtx Ctx.backgroundCtx keyAsyncRequest (Any.bool true))
        keyAsyncRequest (Any.string "true"))) = false
    ∧ HasAsyncID (some (Ctx.valueCtx
        (Ctx.valueCtx Ctx.backgroundCtx keyAsyncID (Any.string "job-42"))
        keyAsyncID Any.nil)) = ("", false)
    ∧ HasAsyncID (some (Ctx.valueCtx
        (Ctx.valueCtx Ctx.backgroundCtx keyAsyncID (Any.string "job-42"))
        keyAsyncID (Any.bool true))) = ("", false) := by
  refine ⟨?_, ?_, by decide, by decide, by decide, by decide, by decide⟩
  · intro c v hv
    refine ⟨_, _, run_eq WriteOp.Async c, ?_, WithValue_ContextKey _ _ v, ?_⟩
    · rw [IsAsyncRequest_some]
      simp [Ctx.Value, WriteOp.key, WriteOp.val]
    · rw [IsAsyncRequest_some]
      simp [Ctx.Value, keyAsyncRequest, hv]
  · intro c id v hv
    refine ⟨_, _, run_eq (WriteOp.AsyncID id) c, ?_, WithValue_ContextKey _ _ v, ?_⟩
    · rw [HasAsyncID_some]
      simp [Ctx.Value, WriteOp.key, WriteOp.val, Any.assertString]
    · rw [HasAsyncID_some]
      have hval : (Ctx.valueCtx
          (Ctx.valueCtx (c.getD Ctx.backgroundCtx) (WriteOp.AsyncID id).key
            (WriteOp.AsyncID id).val)
          (Any.ContextKey "arangodb-async-id") v).Value keyAsyncID = v := by
        simp [Ctx.Value, keyAsyncID]
      rw [hval]
      cases v with
      | string s => exact absurd rfl (hv s)
      | _ => rfl

/-- Instance of C16: on top of `WithAsync nil`, a link made by `context.WithValue`
that stores `false` under the async-request key turns `IsAsyncRequest` to `false`. -/
theorem C16_reads_stop_at_nearest_value_witness :
    Any.bool false ≠ Any.bool true
    ∧ ∃ r1 r2, WithAsync none = Except.ok r1 ∧ IsAsyncRequest r1 = true
        ∧ WithValue r1 keyAsyncRequest (Any.bool false) = Except.ok r2
        ∧ IsAsyncRequest r2 = false :=
  ⟨by decide, C16_reads_stop_at_nearest_value.1 none (Any.bool false) (by decide)⟩

/-- C17: the reserved keys have the type `ContextKey`, so a key of type `string` with
the same text does not collide with them. For every non-nil context `c` and every
value `v`, `context.WithValue` with the string key `"arangodb-async-request"`
returns a context on which `IsAsyncRequest` is what it is on `c`, also for
`v = true`; with the string key `"arangodb-async-id"` it returns a context on which
`HasAsyncID` is what it is on `c`, also when `v` is a string. For every context
value, nil included, whenever `context.WithValue` returns, the same holds. -/
theorem C17_string_keys_do_not_collide :
    Any.string "arangodb-async-request" ≠ keyAsyncRequest
    ∧ Any.string "arangodb-async-id" ≠ keyAsyncID
    ∧ (∀ (c : Ctx) (v : Any), ∃ r,
        WithValue (some c) (Any.string "arangodb-async-request") v = Except.ok r
          ∧ IsAsyncRequest r = IsAsyncRequest (some c))
    ∧ (∀ (c : Ctx) (v : Any), ∃ r,
        WithValue (some c) (Any.string "arangodb-async-id") v = Except.ok r
          ∧ HasAsyncID r = HasAsyncID (some c))
    ∧ (∀ (ctx r : Context) (v : Any),
        WithValue ctx (Any.string "arangodb-async-request") v = Except.ok r →
          IsAsyncRequest r = IsAsyncRequest ctx)
    ∧ (∀ (ctx r : Context) (v : Any),
        WithValue ctx (Any.string "arangodb-async-id") v = Except.ok r →
          HasAsyncID r = HasAsyncID ctx)
    ∧ (∃ r, WithValue Background (Any.string "arangodb-async-request") (Any.bool true)
          = Except.ok r
        ∧ IsAsyncRequest r = false)
    ∧ (∃ r, WithValue Background (Any.string "arangodb-async-id") (Any.string "job-42")
          = Except.ok r
        ∧ HasAsyncID r = ("", false)) := by
  have hA : ∀ (c : Ctx) (v : Any),
      IsAsyncRequest (some (Ctx.valueCtx c (Any.string "arangodb-async-request") v))
        = IsAsyncRequest (some c) := by
    intro c v
    rw [IsAsyncRequest_some, IsAsyncRequest_some]
    simp [Ctx.Value, keyAsyncRequest]
  have hI : ∀ (c : Ctx) (v : Any),
      HasAsyncID (some (Ctx.valueCtx c (Any.string "arangodb-async-id") v))
        = HasAsyncID (some c) := by
    intro c v
    rw [HasAsyncID_some, HasAsyncID_some]
    simp [Ctx.Value, keyAsyncID]
  refine ⟨by decide, by decide, ?_, ?_, ?_, ?_, ?_, ?_⟩
  · intro c v
    exact ⟨_, WithValue_string c _ v, hA c v⟩
  · intro c v
    exact ⟨_, WithValue_string c _ v, hI c v⟩
  · intro ctx r v h
    cases ctx with
    | none => simp [WithValue] at h
    | some c =>
      rw [WithValue_string] at h
      simp only [Except.ok.injEq] at h
      subst h
      exact hA c v
  · intro ctx r v h
    cases ctx with
    | none => simp [WithValue] at h
    | some c =>
      rw [WithValue_string] at h
      simp only [Except.ok.injEq] at h
      subst h
      exact hI c v
  · exact ⟨_, WithValue_string _ _ _, by decide⟩
  · exact ⟨_, WithValue_string _ _ _, by decide⟩

/-- Instance of C17: the context that `context.WithValue` returns for the empty root,
the string key `"arangodb-async-request"` and the value `true` is not an async
request, as the empty root is not. -/
theorem C17_string_keys_do_not_collide_witness :
    WithValue (some Ctx.backgroundCtx) (Any.string "arangodb-async-request") (Any.bool true)
        = Except.ok (some (Ctx.valueCtx Ctx.backgroundCtx
            (Any.string "arangodb-async-request") (Any.bool true)))
    ∧ IsAsyncRequest (some (Ctx.valueCtx Ctx.backgroundCtx
          (Any.string "arangodb-async-request") (Any.bool true)))
        = IsAsyncRequest (some Ctx.backgroundCtx) :=
  ⟨rfl, C17_string_keys_do_not_collide.2.2.2.2.1 _ _ (Any.bool true) rfl⟩

/-- C18, as stated, fails: none of the five reserved keys is the bare identifier of
the specification, neither as a `ContextKey` nor as a `string`, and the context
that `WithArangoQueueTimeout` returns has no value under `use-queue-timeout`. -/
theorem C18_keys_are_not_the_bare_identifiers :
    keyUseQueueTimeout ≠ Any.ContextKey "use-queue-timeout"
    ∧ keyUseQueueTimeout ≠ Any.string "use-queue-timeout"
    ∧ keyMaxQueueTime ≠ Any.ContextKey "max-queue-time-seconds"
    ∧ keyMaxQueueTime ≠ Any.string "max-queue-time-seconds"
    ∧ keyDriverFlags ≠ Any.ContextKey "driver-flags"
    ∧ keyDriverFlags ≠ Any.string "driver-flags"
    ∧ keyAsyncRequest ≠ Any.ContextKey "async-request"
    ∧ keyAsyncRequest ≠ Any.string "async-request"
    ∧ keyAsyncID ≠ Any.ContextKey "async-id"
    ∧ keyAsyncID ≠ Any.string "async-id"
    ∧ lookup (some (Ctx.valueCtx Ctx.backgroundCtx keyUseQueueTimeout (Any.bool true)))
        (Any.ContextKey "use-queue-timeout") = Any.nil
    ∧ lookup (some (Ctx.valueCtx Ctx.backgroundCtx keyUseQueueTimeout (Any.bool true)))
        (Any.string "use-queue-timeout") = Any.nil
    ∧ WithArangoQueueTimeout none true
        = Except.ok (some (Ctx.valueCtx Ctx.backgroundCtx keyUseQueueTimeout (Any.bool true))) := by
  refine ⟨by decide, by decide, by decide, by decide, by decide, by decide, by decide,
    by decide, by decide, by decide, by decide, by decide, rfl⟩

/-- C18, amended: each reserved key is the `ContextKey` whose text is `arangodb-`
followed by the identifier of the specification. `WithArangoQueueTimeout` stores
under `arangodb-use-queue-timeout`, `WithArangoQueueTime` under
`arangodb-max-queue-time-seconds`, `WithDriverFlags` under `arangodb-driver-flags`,
`WithAsync` under `arangodb-async-request` and `WithAsyncID` under
`arangodb-async-id`; `IsAsyncRequest` reads `arangodb-async-request` and
`HasAsyncID` reads `arangodb-async-id`. -/
theorem C18_reserved_keys_have_arangodb_text :
    keyUseQueueTimeout = Any.ContextKey ("arangodb-" ++ "use-queue-timeout")
    ∧ keyMaxQueueTime = Any.ContextKey ("arangodb-" ++ "max-queue-time-seconds")
    ∧ keyDriverFlags = Any.ContextKey ("arangodb-" ++ "driver-flags")
    ∧ keyAsyncRequest = Any.ContextKey ("arangodb-" ++ "async-request")
    ∧ keyAsyncID = Any.ContextKey ("arangodb-" ++ "async-id")
    ∧ (∀ (c : Context) (b : Bool), ∃ p, WithArangoQueueTimeout c b
        = Except.ok (some (Ctx.valueCtx p
            (Any.ContextKey "arangodb-use-queue-timeout") (Any.bool b))))
    ∧ (∀ (c : Context) (d : Int), ∃ p, WithArangoQueueTime c d
        = Except.ok (some (Ctx.valueCtx p
            (Any.ContextKey "arangodb-max-queue-time-seconds") (Any.Duration d))))
    ∧ (∀ (c : Context) (v : List String), ∃ p, WithDriverFlags c v
        = Except.ok (some (Ctx.valueCtx p
            (Any.ContextKey "arangodb-driver-flags") (Any.strings v))))
    ∧ (∀ c : Context, ∃ p, WithAsync c
        = Except.ok (some (Ctx.valueCtx p
            (Any.ContextKey "arangodb-async-request") (Any.bool true))))
    ∧ (∀ (c : Context) (id : String), ∃ p, WithAsyncID c id
        = Except.ok (some (Ctx.valueCtx p
            (Any.ContextKey "arangodb-async-id") (Any.string id))))
    ∧ (∀ c : Context, IsAsyncRequest c
        = decide (lookup c (Any.ContextKey "arangodb-async-request") = Any.bool true))
    ∧ (∀ c : Context, HasAsyncID c
        = (lookup c (Any.ContextKey "arangodb-async-id")).assertString) := by
  refine ⟨by decide, by decide, by decide, by decide, by decide, ?_, ?_, ?_, ?_, ?_, ?_, ?_⟩
  · exact fun c b => ⟨_, run_eq (WriteOp.ArangoQueueTimeout b) c⟩
  · exact fun c d => ⟨_, run_eq (WriteOp.ArangoQueueTime d) c⟩
  · exact fun c v => ⟨_, run_eq (WriteOp.DriverFlags v) c⟩
  · exact fun c => ⟨_, run_eq WriteOp.Async c⟩
  · exact fun c id => ⟨_, run_eq (WriteOp.AsyncID id) c⟩
  · exact IsAsyncRequest_eq
  · exact HasAsyncID_eq

end connection
